import Mathlib

/-
  Verification of the reemio-recommender-system repository.

  The repository ships the documentation of a hybrid recommendation
  pipeline (README, IMPLEMENTATION_SUMMARY) together with a TypeScript
  demo frontend (CartProvider, api client, product cards).  The Python
  engine itself (recommendation_engine_v2.py, user_preference.py,
  reranker.py) is not part of the source tree, so the engine is modelled
  here from the specification, while the frontend definitions are
  translated directly from the TypeScript sources.
-/

namespace Frontend

/-- A product as the frontend sees it (frontend/src/types/index.ts):
identifier, name, category, price and the recommendation score returned
by the API. -/
structure Product where
  product_id : String
  name : String
  category : String
  price : ℚ
  score : ℚ
  deriving DecidableEq, Repr

/-- CartProvider.addToCart (CartContext source): if an item with the same
product_id is already present the state is returned unchanged and the
function returns false; otherwise the product is appended and it returns
true. -/
def addToCart (p : Product) (items : List Product) : List Product × Bool :=
  if items.any (fun item => item.product_id == p.product_id) then
    (items, false)
  else
    (items ++ [p], true)

/-- CartProvider.removeFromCart: keep every item whose product_id differs
from the removed one. -/
def removeFromCart (productId : String) (items : List Product) : List Product :=
  items.filter (fun item => item.product_id != productId)

/-- CartProvider.clearCart: the empty cart. -/
def clearCart : List Product := []

/-- One user-initiated cart operation. -/
inductive CartOp where
  | add (p : Product)
  | remove (productId : String)
  | clear
  deriving Repr

/-- Apply one cart operation to the current items, discarding the Boolean
result of addToCart (the provider keeps only the new state). -/
def applyOp (items : List Product) : CartOp → List Product
  | .add p => (addToCart p items).1
  | .remove pid => removeFromCart pid items
  | .clear => clearCart

/-- Run a sequence of cart operations starting from the initial empty
cart (useState with an empty array). -/
def runCart (ops : List CartOp) : List Product :=
  ops.foldl applyOp []

/-- The JSON body built by trackInteraction in frontend/src/api/client.ts:
exactly the fields user_id, product_id and interaction_type. -/
def trackInteractionBody (userId productId interactionType : String) :
    List (String × String) :=
  [("user_id", userId), ("product_id", productId),
   ("interaction_type", interactionType)]

/-- Outcome of the awaited fetch call: the promise either resolves (with
some HTTP status, ok or not) or rejects with a network error. -/
inductive FetchOutcome where
  | success (status : Nat)
  | networkError (msg : String)
  deriving Repr

/-- trackInteraction (frontend/src/api/client.ts and frontend/app.js):
post the body and catch any rejection of the fetch call, only logging it.
The helper therefore always resolves with unit. -/
def trackInteraction (send : List (String × String) → FetchOutcome)
    (userId productId interactionType : String) : Except String Unit :=
  match send (trackInteractionBody userId productId interactionType) with
  | .success _ => .ok ()
  | .networkError _ => .ok ()

/-- JavaScript Math.round on an exact rational: round half away from zero
is round half up for the non-negative values produced by the clamp. -/
def jsRound (x : ℚ) : ℤ := ⌊x + 1 / 2⌋

/-- The displayed match percentage
(ProductGrid.tsx, ProductPage.tsx, app.js renderProduct):
Math.round(Math.max(0, Math.min(100, product.score * 100))). -/
def scorePercentage (score : ℚ) : ℤ :=
  jsRound (max 0 (min 100 (score * 100)))

end Frontend

namespace Engine

/-- Modelled from the spec: the catalog Product of the data model
(section 3) - identifier, single category label, price, stock flag and a
fixed-dimension content vector.  The Python engine holding this type is
not in the source tree. -/
structure Product where
  product_id : String
  category : String
  price : ℚ
  in_stock : Bool
  vector : List ℚ
  deriving DecidableEq, Repr

/-- Modelled from the spec: the enumerated interaction kinds of the
Interaction Ledger (README interaction-type table). -/
inductive InteractionKind where
  | purchase
  | cart_add
  | wishlist_add
  | recommendation_click
  | view
  | recommendation_view
  | cart_remove
  | search
  deriving DecidableEq, Repr

/-- Modelled from the spec: the fixed base-weight lookup of the
Preference Aggregator (purchase 5.0, cart_add 3.0, wishlist_add 2.0,
recommendation_click 1.5, view 1.0, recommendation_view 0.5,
cart_remove -1.0, search 0). -/
def baseWeight : InteractionKind → ℚ
  | .purchase => 5
  | .cart_add => 3
  | .wishlist_add => 2
  | .recommendation_click => 3 / 2
  | .view => 1
  | .recommendation_view => 1 / 2
  | .cart_remove => -1
  | .search => 0

/-- Modelled from the spec: the per-interaction effective weight of the
Preference Aggregator, base_weight(kind) times exp(-age_days / 30).  The
aggregator source (user_preference.py) is not in the tree. -/
noncomputable def effectiveWeight (k : InteractionKind) (ageDays : ℝ) : ℝ :=
  (baseWeight k : ℝ) * Real.exp (-ageDays / 30)

/-- Modelled from the spec: the configurable weight triple of the Hybrid
Scorer (alpha for content, beta for collaborative, gamma for
popularity). -/
structure ScoringWeights where
  contentWeight : ℚ
  collaborativeWeight : ℚ
  popularityWeight : ℚ
  deriving DecidableEq, Repr

/-- Modelled from the spec: the default weights 0.5, 0.3, 0.2 of
HybridRecommendationEngine (IMPLEMENTATION_SUMMARY configuration). -/
def defaultWeights : ScoringWeights :=
  { contentWeight := 1 / 2, collaborativeWeight := 3 / 10,
    popularityWeight := 1 / 5 }

/-- Modelled from the spec: the fused score of the Hybrid Scorer,
final_score = alpha * content + beta * collaborative + gamma * popularity
(section 4.2); a pure function of its inputs. -/
def finalScore (w : ScoringWeights)
    (content collaborative popularity : ℚ) : ℚ :=
  w.contentWeight * content + w.collaborativeWeight * collaborative +
    w.popularityWeight * popularity

/-- Modelled from the spec: one record of the append-only Interaction
Ledger, restricted to the fields the pipeline reads (user, optional
product, kind). -/
structure Interaction where
  user_id : String
  product_id : Option String
  kind : InteractionKind
  deriving DecidableEq, Repr

/-- Modelled from the spec: the shared stores a request reads - the
product catalog with its embeddings and the Interaction Ledger. -/
structure Catalog where
  products : List Product
  interactions : List Interaction
  deriving Repr

/-- Modelled from the spec: the error taxonomy of section 7. -/
inductive RecError where
  | dataUnavailable
  | upstreamModelFailure
  | invalidRequest
  deriving DecidableEq, Repr

/-- All ledger records of one user (list_interactions). -/
def userInteractions (cat : Catalog) (uid : String) : List Interaction :=
  cat.interactions.filter (fun i => i.user_id == uid)

/-- Find the catalog product with the given identifier. -/
def lookupProduct (cat : Catalog) (pid : String) : Option Product :=
  cat.products.find? (fun p => p.product_id == pid)

/-- Componentwise sum of two equal-dimension vectors. -/
def vecAdd (a b : List ℚ) : List ℚ := List.zipWith (· + ·) a b

/-- Scale a vector by a rational factor. -/
def vecScale (c : ℚ) (v : List ℚ) : List ℚ := v.map (fun x => c * x)

/-- Dot product of two equal-dimension vectors.  The stored embeddings
are unit vectors, so this is their cosine similarity. -/
def dot (a b : List ℚ) : ℚ := (List.zipWith (· * ·) a b).sum

/-- Modelled from the spec: the decayed preference vector of a user, the
base-weighted average of the content vectors of the products the user
interacted with (user_preference.py is not in the tree; the exponential
recency factor, analysed separately through effectiveWeight, is taken at
age zero here to keep the engine model exact over the rationals). -/
def preferenceVector (cat : Catalog) (uid : String) : List ℚ :=
  let pairs := (userInteractions cat uid).filterMap (fun i =>
    i.product_id.bind (fun pid =>
      (lookupProduct cat pid).map (fun p => (baseWeight i.kind, p.vector))))
  match pairs with
  | [] => []
  | first :: _ =>
    let zero := first.2.map (fun _ => (0 : ℚ))
    let total := (pairs.map Prod.fst).sum
    let acc := pairs.foldl (fun v wp => vecAdd v (vecScale wp.1 wp.2)) zero
    if total = 0 then acc else vecScale total⁻¹ acc

/-- Modelled from the spec: candidate pool size of the content retrieval
(default around 50). -/
def defaultPoolSize : Nat := 50

/-- Rank the whole catalog by descending similarity to a query vector. -/
def rankBySimilarity (cat : Catalog) (q : List ℚ) : List Product :=
  cat.products.mergeSort (fun a b => decide (dot q b.vector ≤ dot q a.vector))

/-- Modelled from the spec: the content-based retrieval strategy - when
the user has a preference vector (which exists only with at least one
qualifying interaction), the top products by similarity; without one the
strategy reports DataUnavailable, which triggers fallback, not
failure. -/
def contentStrategy (cat : Catalog) (uid : String) :
    Except RecError (List Product) :=
  if userInteractions cat uid = [] then .error .dataUnavailable
  else .ok ((rankBySimilarity cat (preferenceVector cat uid)).take defaultPoolSize)

/-- Product identifiers the user interacted with positively. -/
def positiveProductIds (cat : Catalog) (uid : String) : List String :=
  (userInteractions cat uid).filterMap (fun i =>
    if 0 < baseWeight i.kind then i.product_id else none)

/-- Modelled from the spec: similar users are the other users who
positively interacted with a product this user also positively
interacted with (IMPLEMENTATION_SUMMARY: users who liked same
products). -/
def similarUsers (cat : Catalog) (uid : String) : List String :=
  ((cat.interactions.filter (fun i =>
      i.user_id != uid && decide (0 < baseWeight i.kind) &&
        (match i.product_id with
         | some pid => (positiveProductIds cat uid).contains pid
         | none => false))).map (fun i => i.user_id)).dedup

/-- Modelled from the spec: the collaborative retrieval strategy - pool
the products similar users interacted with positively; a user with no
ledger records has no collaborative signal (DataUnavailable). -/
def collabStrategy (cat : Catalog) (uid : String) :
    Except RecError (List Product) :=
  if userInteractions cat uid = [] then .error .dataUnavailable
  else .ok ((((similarUsers cat uid).map (positiveProductIds cat)).flatten.dedup).filterMap
    (lookupProduct cat))

/-- Global interaction-weighted popularity of one product: the summed
base weights of every ledger record on it. -/
def popularityScore (cat : Catalog) (pid : String) : ℚ :=
  ((cat.interactions.filter (fun i => i.product_id == some pid)).map
    (fun i => baseWeight i.kind)).sum

/-- The whole catalog ranked by descending global popularity. -/
def popularityRanking (cat : Catalog) : List Product :=
  cat.products.mergeSort (fun a b =>
    decide (popularityScore cat b.product_id ≤ popularityScore cat a.product_id))

/-- Modelled from the spec: the popularity fallback strategy is always
computed and never fails - it needs no per-user data. -/
def popularityStrategy (cat : Catalog) : Except RecError (List Product) :=
  .ok (popularityRanking cat)

/-- The pool a strategy contributes: its products on success, the empty
pool when it failed (failures are isolated per strategy). -/
def poolOf : Except RecError (List Product) → List Product
  | .ok l => l
  | .error _ => []

/-- Deduplicate a combined pool on product identifier, first occurrence
wins (duplicate candidates from several strategies are merged, not
double counted). -/
def dedupById (l : List Product) : List Product :=
  l.foldl (fun acc p =>
    if acc.any (fun q => q.product_id == p.product_id) then acc
    else acc ++ [p]) []

/-- Modelled from the spec: combine the three retrieval strategies by
union then dedup; a failing strategy contributes an empty pool, and only
when every strategy failed does the request fail with
DataUnavailable. -/
def generateCandidates (content collab pop : Except RecError (List Product)) :
    Except RecError (List Product) :=
  if content.isOk || collab.isOk || pop.isOk then
    .ok (dedupById (poolOf content ++ poolOf collab ++ poolOf pop))
  else .error .dataUnavailable

/-- A transient per-request candidate: a product with its partial
signals and fused score. -/
structure Candidate where
  product : Product
  content_score : ℚ
  collaborative_score : ℚ
  popularity_score : ℚ
  fused_score : ℚ
  deriving DecidableEq, Repr

/-- One entry of the final Recommendation Result: the product, its
score, and the 1-based position. -/
structure ResultEntry where
  product : Product
  score : ℚ
  position : Nat
  deriving DecidableEq, Repr

/-- Modelled from the spec: the reranking stage (section 4.3).  When the
reranker is unavailable, errors, or times out, the outcome is an error
and the fused order is used unchanged; on success the top-K slice is
reordered by descending reranker score and the tail is kept. -/
def rerankStage (topK : Nat) (outcome : Except RecError (Candidate → ℚ))
    (l : List Candidate) : List Candidate :=
  match outcome with
  | .error _ => l
  | .ok score =>
    (l.take topK).mergeSort (fun a b => decide (score b ≤ score a)) ++ l.drop topK

/-- Modelled from the spec: stock filter, rule 1 of the Business Rules
Filter - drop every candidate marked out-of-stock. -/
def stockFilter (l : List Candidate) : List Candidate :=
  l.filter (fun c => c.product.in_stock)

/-- How many candidates of the list carry the given category. -/
def countCategory (l : List Candidate) (catg : String) : Nat :=
  (l.filter (fun c => c.product.category == catg)).length

/-- Modelled from the spec: the diversity walk - visit candidates in
rank order, accept one while its category stays within the cap,
otherwise defer it (a stable two-pass partition into accepted and
deferred). -/
def diversityGo (cap : Nat) (acc deferred : List Candidate) :
    List Candidate → List Candidate × List Candidate
  | [] => (acc, deferred)
  | c :: rest =>
    if countCategory acc c.product.category < cap then
      diversityGo cap (acc ++ [c]) deferred rest
    else
      diversityGo cap acc (deferred ++ [c]) rest

/-- The candidates the diversity walk accepts within the cap. -/
def capRespecting (cap : Nat) (l : List Candidate) : List Candidate :=
  (diversityGo cap [] [] l).1

/-- Modelled from the spec: over-cap candidates are demoted to the end
of the sequence, never dropped. -/
def diversityDemote (cap : Nat) (l : List Candidate) : List Candidate :=
  (diversityGo cap [] [] l).1 ++ (diversityGo cap [] [] l).2

/-- Default per-category diversity cap (max 3 per category). -/
def defaultDiversityCap : Nat := 3

/-- Attach 1-based positions to the final ordered candidates, starting
at the given position. -/
def withPositionsFrom (pos : Nat) : List Candidate → List ResultEntry
  | [] => []
  | c :: rest =>
    { product := c.product, score := c.fused_score, position := pos } ::
      withPositionsFrom (pos + 1) rest

/-- Output of the Business Rules Filter: 1-based positions. -/
def withPositions (l : List Candidate) : List ResultEntry :=
  withPositionsFrom 1 l

/-- Modelled from the spec: the Business Rules Filter (section 4.4) -
stock filter, then diversity walk with demotion, then truncation to the
requested limit, each entry annotated with its 1-based position. -/
def businessRules (cap limit : Nat) (l : List Candidate) : List ResultEntry :=
  withPositions ((diversityDemote cap (stockFilter l)).take limit)

end Engine

section FrontendProofs

open Frontend

lemma applyOp_nodup (items : List Frontend.Product) (op : CartOp)
    (h : (items.map Frontend.Product.product_id).Nodup) :
    ((applyOp items op).map Frontend.Product.product_id).Nodup := by
  cases op with
  | add p =>
    simp only [applyOp, addToCart]
    split
    · exact h
    · rename_i hnone
      have hnotin : p.product_id ∉ items.map Frontend.Product.product_id := by
        intro hmem
        rcases List.mem_map.mp hmem with ⟨q, hq, hqid⟩
        have : items.any (fun item => item.product_id == p.product_id) = true :=
          List.any_eq_true.mpr ⟨q, hq, by simp [hqid]⟩
        exact hnone this
      simp only [List.map_append, List.map_cons, List.map_nil]
      refine List.Nodup.append h (List.nodup_singleton _) ?_
      intro a ha hb
      have haeq : a = p.product_id := by simpa using hb
      exact hnotin (haeq ▸ ha)
  | remove pid =>
    simp only [applyOp, removeFromCart]
    have hsub : List.Sublist
        ((items.filter (fun item => item.product_id != pid)).map Frontend.Product.product_id)
        (items.map Frontend.Product.product_id) :=
      (List.filter_sublist items).map Frontend.Product.product_id
    exact h.sublist hsub
  | clear => simp [applyOp, clearCart]

lemma foldl_applyOp_nodup (ops : List CartOp) :
    ∀ items : List Frontend.Product,
      (items.map Frontend.Product.product_id).Nodup →
      ((ops.foldl applyOp items).map Frontend.Product.product_id).Nodup := by
  induction ops with
  | nil => intro items h; simpa using h
  | cons op rest ih =>
    intro items h
    simpa [List.foldl_cons] using ih (applyOp items op) (applyOp_nodup items op h)

/-- C8: any sequence of addToCart, removeFromCart and clearCart starting
from the empty cart keeps product identifiers pairwise distinct, and
addToCart of an already-present product_id returns false with the cart
unchanged. -/
theorem cart_ids_unique_and_duplicate_add_rejected
    (ops : List CartOp) (p : Frontend.Product) (items : List Frontend.Product)
    (h : items.any (fun item => item.product_id == p.product_id) = true) :
    ((runCart ops).map Frontend.Product.product_id).Nodup
    ∧ addToCart p items = (items, false) := by
  constructor
  · exact foldl_applyOp_nodup ops [] (by simp)
  · simp [addToCart, h]

def demoProduct : Frontend.Product :=
  { product_id := "p1", name := "Phone", category := "Electronics",
    price := 100, score := 1 }

def demoOps : List CartOp :=
  [.add demoProduct, .add demoProduct, .remove "zzz", .clear, .add demoProduct]

theorem cart_ids_unique_witness :
    ([demoProduct].any (fun item => item.product_id == demoProduct.product_id) = true)
    ∧ ((runCart demoOps).map Frontend.Product.product_id).Nodup
    ∧ addToCart demoProduct [demoProduct] = ([demoProduct], false) :=
  ⟨by decide,
   (cart_ids_unique_and_duplicate_add_rejected demoOps demoProduct [demoProduct]
      (by decide)).1,
   (cart_ids_unique_and_duplicate_add_rejected demoOps demoProduct [demoProduct]
      (by decide)).2⟩

/-- C9: trackInteraction resolves for every outcome of the underlying
fetch call - a rejected fetch is caught and only logged, so no error
ever propagates to the caller. -/
theorem track_interaction_always_resolves
    (send : List (String × String) → FetchOutcome)
    (userId productId interactionType : String) :
    trackInteraction send userId productId interactionType = .ok () := by
  unfold trackInteraction
  cases send (trackInteractionBody userId productId interactionType) <;> rfl

/-- C10: the displayed match percentage equals
round(min(100, max(0, score times 100))) and always lies within 0 and
100, whatever rational score the API returned. -/
theorem score_percentage_clamped (s : ℚ) :
    scorePercentage s = jsRound (min 100 (max 0 (s * 100)))
    ∧ 0 ≤ scorePercentage s ∧ scorePercentage s ≤ 100 := by
  have hcomm : max 0 (min 100 (s * 100)) = min 100 (max 0 (s * 100)) := by
    rw [max_min_distrib_left]
    norm_num
  refine ⟨by rw [scorePercentage, hcomm], ?_, ?_⟩
  · have h0 : (0 : ℚ) ≤ max 0 (min 100 (s * 100)) := le_max_left 0 _
    have : (0 : ℚ) ≤ max 0 (min 100 (s * 100)) + 1 / 2 := by linarith
    exact Int.floor_nonneg.mpr this
  · have h100 : max 0 (min 100 (s * 100)) ≤ 100 :=
      max_le (by norm_num) (min_le_left 100 _)
    have hle : max 0 (min 100 (s * 100)) + 1 / 2 ≤ (201 : ℚ) / 2 := by linarith
    have := Int.floor_le_floor hle
    have h201 : (⌊(201 : ℚ) / 2⌋ : ℤ) = 100 := by
      norm_num [Int.floor_eq_iff]
    rw [h201] at this
    exact this

lemma withPositionsFrom_map_position (l : List Engine.Candidate) :
    ∀ pos : Nat,
      (Engine.withPositionsFrom pos l).map Engine.ResultEntry.position =
        List.range' pos l.length := by
  induction l with
  | nil => intro pos; simp [Engine.withPositionsFrom]
  | cons c rest ih =>
    intro pos
    simp [Engine.withPositionsFrom, List.range', ih (pos + 1)]

/-- C7 counterexample: at a concrete interaction logged by the demo
frontend, the request body contains neither a recommendation_position
field nor a request id field, refuting the echo-back half of the
claim. -/
theorem track_interaction_omits_attribution_fields :
    ((trackInteractionBody "805b5c8c-ac76-4422-803b-80151c911fd3" "p1"
        "cart_add").lookup "recommendation_position" = none)
    ∧ ((trackInteractionBody "805b5c8c-ac76-4422-803b-80151c911fd3" "p1"
        "cart_add").lookup "recommendation_request_id" = none)
    ∧ ((trackInteractionBody "805b5c8c-ac76-4422-803b-80151c911fd3" "p1"
        "cart_add").lookup "request_id" = none) := by
  decide

/-- C7 amended: every entry of a recommendation result carries its
1-based position, but the frontend caller does not echo it back - every
interaction it logs carries exactly the fields user_id, product_id and
interaction_type. -/
theorem positions_annotated_but_never_echoed
    (l : List Engine.Candidate) (userId productId interactionType : String) :
    (Engine.withPositions l).map Engine.ResultEntry.position =
        List.range' 1 l.length
    ∧ (trackInteractionBody userId productId interactionType).map Prod.fst =
        ["user_id", "product_id", "interaction_type"] := by
  exact ⟨withPositionsFrom_map_position l 1, rfl⟩

end FrontendProofs

section EngineProofs

open Engine

/-- C1: the fused score is the weighted sum of the three partial
signals, the default weight triple is 0.5, 0.3, 0.2, and with
non-negative weights the score is monotone non-decreasing in each
partial signal with the other two held fixed. -/
theorem final_score_linear_and_monotone (w : ScoringWeights)
    (hwc : 0 ≤ w.contentWeight) (hws : 0 ≤ w.collaborativeWeight)
    (hwp : 0 ≤ w.popularityWeight)
    (c c₂ s s₂ p p₂ : ℚ) (hc : c ≤ c₂) (hs : s ≤ s₂) (hp : p ≤ p₂) :
    finalScore w c s p =
        w.contentWeight * c + w.collaborativeWeight * s +
          w.popularityWeight * p
    ∧ defaultWeights.contentWeight = 1 / 2
    ∧ defaultWeights.collaborativeWeight = 3 / 10
    ∧ defaultWeights.popularityWeight = 1 / 5
    ∧ finalScore w c s p ≤ finalScore w c₂ s p
    ∧ finalScore w c s p ≤ finalScore w c s₂ p
    ∧ finalScore w c s p ≤ finalScore w c s p₂ := by
  refine ⟨rfl, rfl, rfl, rfl, ?_, ?_, ?_⟩
  · have := mul_le_mul_of_nonneg_left hc hwc
    unfold finalScore
    linarith
  · have := mul_le_mul_of_nonneg_left hs hws
    unfold finalScore
    linarith
  · have := mul_le_mul_of_nonneg_left hp hwp
    unfold finalScore
    linarith

theorem final_score_monotone_witness :
    (0 : ℚ) ≤ defaultWeights.contentWeight
    ∧ finalScore defaultWeights 0 0 0 ≤ finalScore defaultWeights 1 0 0 :=
  ⟨by norm_num [defaultWeights],
   (final_score_linear_and_monotone defaultWeights
      (by norm_num [defaultWeights]) (by norm_num [defaultWeights])
      (by norm_num [defaultWeights]) 0 1 0 0 0 0 (by norm_num) (by norm_num)
      (by norm_num)).2.2.2.2.1⟩

/-- C5 counterexample: a cart_remove interaction has base weight -1, so
the 1-day-old interaction contributes strictly less weight than the
otherwise-identical 60-day-old one - the effective weight is not
decreasing in age for negative base weights. -/
theorem cart_remove_decay_not_decreasing :
    effectiveWeight .cart_remove 1 < effectiveWeight .cart_remove 60 := by
  have h : Real.exp (-(60 : ℝ) / 30) < Real.exp (-(1 : ℝ) / 30) :=
    Real.exp_lt_exp.mpr (by norm_num)
  have hb : (baseWeight .cart_remove : ℝ) = -1 := by
    norm_num [baseWeight]
  unfold effectiveWeight
  rw [hb]
  linarith

/-- C5 amended: the effective weight equals
base_weight(kind) times exp(-age_days / 30), and for every interaction
kind with positive base weight (all kinds except cart_remove and
search) it is strictly decreasing in age. -/
theorem effective_weight_formula_and_decay (k : InteractionKind)
    (a₁ a₂ : ℝ) (hk : 0 < baseWeight k) (hage : a₁ < a₂) :
    (∀ b : ℝ, effectiveWeight k b = (baseWeight k : ℝ) * Real.exp (-b / 30))
    ∧ effectiveWeight k a₂ < effectiveWeight k a₁ := by
  refine ⟨fun b => rfl, ?_⟩
  have hdiv : -a₂ / 30 < -a₁ / 30 := by
    apply div_lt_div_of_pos_right _ (by norm_num)
    linarith
  have hexp : Real.exp (-a₂ / 30) < Real.exp (-a₁ / 30) :=
    Real.exp_lt_exp.mpr hdiv
  have hcast : (0 : ℝ) < (baseWeight k : ℝ) := by exact_mod_cast hk
  unfold effectiveWeight
  exact mul_lt_mul_of_pos_left hexp hcast

theorem effective_weight_decay_witness :
    (0 : ℚ) < baseWeight .purchase ∧ (1 : ℝ) < 60
    ∧ effectiveWeight .purchase 60 < effectiveWeight .purchase 1 :=
  ⟨by norm_num [baseWeight], by norm_num,
   (effective_weight_formula_and_decay .purchase 1 60 (by norm_num [baseWeight])
      (by norm_num)).2⟩

/-- C6: when the reranker is unavailable, errors or times out (an error
outcome) the candidate order is used unchanged, and for every outcome
the reranking stage returns a permutation of its input - the set of
candidates never changes, only their order. -/
theorem rerank_degrades_and_preserves_set (topK : Nat) (err : RecError)
    (outcome : Except RecError (Candidate → ℚ)) (l : List Candidate) :
    rerankStage topK (.error err) l = l
    ∧ List.Perm (rerankStage topK outcome l) l := by
  refine ⟨rfl, ?_⟩
  cases outcome with
  | error e => exact List.Perm.refl l
  | ok score =>
    have hperm :
        List.Perm ((l.take topK).mergeSort
            (fun a b => decide (score b ≤ score a)))
          (l.take topK) :=
      List.mergeSort_perm (l.take topK) _
    have h2 := hperm.append_right (l.drop topK)
    rw [List.take_append_drop topK l] at h2
    exact h2

lemma dedup_foldl_ne_nil (rest : List Product) :
    ∀ acc : List Product, acc ≠ [] →
      rest.foldl (fun acc p =>
        if acc.any (fun q => q.product_id == p.product_id) then acc
        else acc ++ [p]) acc ≠ [] := by
  induction rest with
  | nil => intro acc h; simpa using h
  | cons c cs ih =>
    intro acc h
    simp only [List.foldl_cons]
    split
    · exact ih acc h
    · exact ih _ (by simp)

lemma dedupById_ne_nil (l : List Product) (h : l ≠ []) :
    dedupById l ≠ [] := by
  cases l with
  | nil => exact absurd rfl h
  | cons c rest =>
    unfold dedupById
    simp only [List.foldl_cons, List.any_nil, Bool.false_eq_true, if_false,
      List.nil_append]
    exact dedup_foldl_ne_nil rest [c] (by simp)

lemma popularityRanking_ne_nil (cat : Catalog) (h : cat.products ≠ []) :
    popularityRanking cat ≠ [] := by
  have hperm := List.mergeSort_perm cat.products (fun a b =>
    decide (popularityScore cat b.product_id ≤ popularityScore cat a.product_id))
  have hlen := hperm.length_eq
  unfold popularityRanking
  intro hnil
  rw [hnil] at hlen
  simp only [List.length_nil] at hlen
  exact h (List.length_eq_zero.mp hlen.symm)

/-- C2: for a user with zero recorded interactions the content and
collaborative strategies report DataUnavailable, the request still
succeeds with exactly the deduplicated popularity-fallback pool, that
pool is nonempty whenever the catalog holds at least one product, and
whatever the other two strategies return, a succeeding popularity
strategy keeps the request from aborting - every failing strategy only
contributes an empty pool. -/
theorem cold_start_popularity_fallback (cat : Catalog) (uid : String)
    (hzero : userInteractions cat uid = []) (hne : cat.products ≠ []) :
    contentStrategy cat uid = .error .dataUnavailable
    ∧ collabStrategy cat uid = .error .dataUnavailable
    ∧ generateCandidates (contentStrategy cat uid) (collabStrategy cat uid)
        (popularityStrategy cat) = .ok (dedupById (popularityRanking cat))
    ∧ dedupById (popularityRanking cat) ≠ []
    ∧ (∀ content collab : Except RecError (List Product),
        generateCandidates content collab (popularityStrategy cat) =
          .ok (dedupById (poolOf content ++ poolOf collab ++
            popularityRanking cat))) := by
  have hcontent : contentStrategy cat uid = .error .dataUnavailable := by
    simp [contentStrategy, hzero]
  have hcollab : collabStrategy cat uid = .error .dataUnavailable := by
    simp [collabStrategy, hzero]
  have hgen : ∀ content collab : Except RecError (List Product),
      generateCandidates content collab (popularityStrategy cat) =
        .ok (dedupById (poolOf content ++ poolOf collab ++
          popularityRanking cat)) := by
    intro content collab
    simp [generateCandidates, popularityStrategy, Except.isOk, Except.toBool,
      poolOf]
  refine ⟨hcontent, hcollab, ?_,
    dedupById_ne_nil _ (popularityRanking_ne_nil cat hne), hgen⟩
  rw [hcontent, hcollab, hgen]
  simp [poolOf]

def demoCatalog : Catalog :=
  { products := [{ product_id := "p1", category := "Electronics",
                   price := 100, in_stock := true, vector := [1] }],
    interactions := [] }

theorem cold_start_witness :
    userInteractions demoCatalog "u1" = [] ∧ demoCatalog.products ≠ []
    ∧ generateCandidates (contentStrategy demoCatalog "u1")
        (collabStrategy demoCatalog "u1") (popularityStrategy demoCatalog) =
        .ok (dedupById (popularityRanking demoCatalog)) :=
  ⟨by decide, by decide,
   (cold_start_popularity_fallback demoCatalog "u1" (by decide)
      (by decide)).2.2.1⟩

lemma perm_snoc_head {α : Type} (a b r : List α) (c : α) :
    List.Perm ((a ++ [c]) ++ b ++ r) (a ++ b ++ (c :: r)) := by
  rw [← Multiset.coe_eq_coe]
  simp only [← Multiset.coe_add, ← Multiset.cons_coe, ← Multiset.singleton_add]
  abel

lemma perm_snoc_mid {α : Type} (a b r : List α) (c : α) :
    List.Perm (a ++ (b ++ [c]) ++ r) (a ++ b ++ (c :: r)) := by
  rw [← Multiset.coe_eq_coe]
  simp only [← Multiset.coe_add, ← Multiset.cons_coe, ← Multiset.singleton_add]
  abel

lemma diversityGo_append_perm (cap : Nat) :
    ∀ (l acc deferred : List Candidate),
      List.Perm ((diversityGo cap acc deferred l).1 ++
          (diversityGo cap acc deferred l).2)
        (acc ++ deferred ++ l) := by
  intro l
  induction l with
  | nil => intro acc deferred; simp [diversityGo]
  | cons c rest ih =>
    intro acc deferred
    simp only [diversityGo]
    split
    · exact (ih (acc ++ [c]) deferred).trans (perm_snoc_head acc deferred rest c)
    · exact (ih acc (deferred ++ [c])).trans (perm_snoc_mid acc deferred rest c)

lemma countCategory_append (l₁ l₂ : List Candidate) (catg : String) :
    countCategory (l₁ ++ l₂) catg =
      countCategory l₁ catg + countCategory l₂ catg := by
  simp [countCategory, List.filter_append]

lemma diversityGo_acc_le_cap (cap : Nat) (catg : String) :
    ∀ (l acc deferred : List Candidate),
      countCategory acc catg ≤ cap →
      countCategory (diversityGo cap acc deferred l).1 catg ≤ cap := by
  intro l
  induction l with
  | nil => intro acc deferred h; simpa [diversityGo] using h
  | cons c rest ih =>
    intro acc deferred h
    simp only [diversityGo]
    split
    · rename_i hcond
      apply ih
      by_cases hcat : c.product.category = catg
      · have h1 : countCategory [c] catg = 1 := by
          simp [countCategory, hcat]
        rw [countCategory_append, h1]
        rw [hcat] at hcond
        omega
      · have h0 : countCategory [c] catg = 0 := by
          simp [countCategory, hcat]
        rw [countCategory_append, h0]
        omega
    · exact ih acc (deferred ++ [c]) h

lemma withPositionsFrom_product_mem :
    ∀ (l : List Candidate) (pos : Nat) (e : ResultEntry),
      e ∈ withPositionsFrom pos l → ∃ c ∈ l, e.product = c.product := by
  intro l
  induction l with
  | nil => intro pos e h; simp [withPositionsFrom] at h
  | cons c rest ih =>
    intro pos e h
    simp only [withPositionsFrom, List.mem_cons] at h
    rcases h with h | h
    · exact ⟨c, List.mem_cons_self c rest, by rw [h]⟩
    · rcases ih (pos + 1) e h with ⟨c₂, hc₂, hp⟩
      exact ⟨c₂, List.mem_cons_of_mem c hc₂, hp⟩

/-- C3: every entry of the final result of the Business Rules Filter is
in stock - the stock filter drops every out-of-stock candidate whatever
its fused score, even though such candidates may sit in the input
pool. -/
theorem business_rules_exclude_out_of_stock (cap limit : Nat)
    (l : List Candidate) (e : ResultEntry)
    (he : e ∈ businessRules cap limit l) :
    e.product.in_stock = true := by
  unfold businessRules withPositions at he
  rcases withPositionsFrom_product_mem _ 1 e he with ⟨c, hc, hpe⟩
  have hc2 : c ∈ diversityDemote cap (stockFilter l) :=
    List.take_subset limit _ hc
  have hperm : List.Perm (diversityDemote cap (stockFilter l))
      (stockFilter l) := by
    simpa [diversityDemote] using
      diversityGo_append_perm cap (stockFilter l) [] []
  have hc3 : c ∈ stockFilter l := hperm.mem_iff.mp hc2
  have hstock := (List.mem_filter.mp hc3).2
  rw [hpe]
  simpa using hstock

def outProduct : Product :=
  { product_id := "p_out", category := "Electronics", price := 100,
    in_stock := false, vector := [1] }

def stockedProduct : Product :=
  { product_id := "p_in", category := "Books", price := 50,
    in_stock := true, vector := [0] }

def demoPool : List Candidate :=
  [{ product := outProduct, content_score := 1, collaborative_score := 1,
     popularity_score := 1, fused_score := 1 },
   { product := stockedProduct, content_score := 0, collaborative_score := 0,
     popularity_score := 0, fused_score := 0 }]

def demoEntry : ResultEntry :=
  { product := stockedProduct, score := 0, position := 1 }

theorem business_rules_stock_witness :
    demoEntry ∈ businessRules 3 4 demoPool
    ∧ demoEntry.product.in_stock = true :=
  have hval : businessRules 3 4 demoPool = [demoEntry] := rfl
  have hmem : demoEntry ∈ businessRules 3 4 demoPool := by
    rw [hval]; exact List.mem_singleton.mpr rfl
  ⟨hmem, business_rules_exclude_out_of_stock 3 4 demoPool demoEntry hmem⟩

/-- C4: the diversity walk demotes over-cap candidates to the end of the
sequence instead of dropping them (the output is a permutation of the
input), and whenever enough cap-respecting candidates exist to fill the
requested limit, no category appears more than cap times in the
truncated result. -/
theorem diversity_cap_with_demotion (cap limit : Nat)
    (pool : List Candidate) (catg : String)
    (hEnough : limit ≤ (capRespecting cap pool).length) :
    List.Perm (diversityDemote cap pool) pool
    ∧ countCategory ((diversityDemote cap pool).take limit) catg ≤ cap := by
  have hperm : List.Perm (diversityDemote cap pool) pool := by
    simpa [diversityDemote] using diversityGo_append_perm cap pool [] []
  refine ⟨hperm, ?_⟩
  have hacc : countCategory (capRespecting cap pool) catg ≤ cap :=
    diversityGo_acc_le_cap cap catg pool [] [] (by simp [countCategory])
  have htake : (diversityDemote cap pool).take limit =
      (capRespecting cap pool).take limit := by
    unfold diversityDemote capRespecting
    exact List.take_append_of_le_length hEnough
  rw [htake]
  have hsub : List.Sublist ((capRespecting cap pool).take limit)
      (capRespecting cap pool) := List.take_sublist limit _
  have hfil := hsub.filter (fun c => c.product.category == catg)
  simp only [countCategory] at hacc ⊢
  exact le_trans hfil.length_le hacc

def candA1 : Candidate :=
  { product := { product_id := "a1", category := "Electronics", price := 10,
                 in_stock := true, vector := [1] },
    content_score := 1, collaborative_score := 0, popularity_score := 0,
    fused_score := 1 }

def candA2 : Candidate :=
  { product := { product_id := "a2", category := "Electronics", price := 20,
                 in_stock := true, vector := [1] },
    content_score := 1, collaborative_score := 0, popularity_score := 0,
    fused_score := 1 }

def candB1 : Candidate :=
  { product := { product_id := "b1", category := "Books", price := 30,
                 in_stock := true, vector := [0] },
    content_score := 0, collaborative_score := 0, popularity_score := 0,
    fused_score := 0 }

def demoDiversePool : List Candidate := [candA1, candA2, candB1]

theorem diversity_cap_witness :
    2 ≤ (capRespecting 1 demoDiversePool).length
    ∧ List.Perm (diversityDemote 1 demoDiversePool) demoDiversePool
    ∧ countCategory ((diversityDemote 1 demoDiversePool).take 2)
        "Electronics" ≤ 1 :=
  have hlen : capRespecting 1 demoDiversePool = [candA1, candB1] := rfl
  have h : 2 ≤ (capRespecting 1 demoDiversePool).length := by
    rw [hlen]; simp
  ⟨h, (diversity_cap_with_demotion 1 2 demoDiversePool "Electronics" h).1,
   (diversity_cap_with_demotion 1 2 demoDiversePool "Electronics" h).2⟩

end EngineProofs
